/-
Verification of the TokenVote on-chain core (CustomToken / TokenFactory / Governance)
against its natural-language specification.

The repository carries two distinct `CustomToken` contracts:
  * `src/contracts/src/CustomToken.sol` — modelled below as `CustomToken`:
    it scales the minted supply by `10 ^ decimals`, keeps a `distributors`
    registry and gates non-mint non-burn moves on it while `transferable`
    is false.
  * `contracts/CustomToken.sol` (the file imported by `TokenFactory.sol`,
    whose constructor signature `(name, symbol, initialSupply, decimals,
    transferable, creator)` matches the factory call site) — modelled below
    as `FactoryToken`: it mints `initialSupply` unscaled, has no
    distributor registry, and its `_update` override rejects every move
    with a non-zero source while `transferable` is false (burns included).

Addresses are modelled as `Fin (n + 1)` with `0` playing the role of the
Solidity zero address; unsigned integers are modelled as `ℕ` (Solidity 0.8
checked arithmetic reverts instead of wrapping, so no reachable value is
ever reduced modulo `2 ^ 256`).  A reverted call leaves the pre-call state
in force, which is what the transactional `applyOp` functions encode.
-/
import Mathlib

namespace TokenVote

/-- Addresses: a finite type whose element `0` is the Solidity zero address. -/
abbrev Addr (n : ℕ) := Fin (n + 1)

/-- Revert reasons of the token layer (CustomToken / OpenZeppelin ERC20 / factory). -/
inductive TokErr where
  | InsufficientBalance
  | TransfersDisabled
  | NotAuthorized
  | LengthMismatch
  | InvalidReceiver
  | InvalidSender
  | InvalidOwner
deriving DecidableEq, Repr

/-- OpenZeppelin ERC20 `_update`: a zero source mints (total supply grows),
a zero destination burns (total supply shrinks), a non-zero source must have
a sufficient balance, which is debited before the destination is credited. -/
def ozUpdate {n : ℕ} (bal : Addr n → ℕ) (ts : ℕ) (fromAddr toAddr : Addr n)
    (value : ℕ) : Except TokErr ((Addr n → ℕ) × ℕ) :=
  if fromAddr = 0 then
    if toAddr = 0 then .ok (bal, ts + value - value)
    else .ok (Function.update bal toAddr (bal toAddr + value), ts + value)
  else
    if bal fromAddr < value then .error .InsufficientBalance
    else
      if toAddr = 0 then
        .ok (Function.update bal fromAddr (bal fromAddr - value), ts - value)
      else
        .ok (Function.update (Function.update bal fromAddr (bal fromAddr - value))
              toAddr
              (Function.update bal fromAddr (bal fromAddr - value) toAddr + value),
            ts)

namespace CustomToken

/-- Storage of the CustomToken contract in `src/contracts/src/CustomToken.sol`. -/
structure State (n : ℕ) where
  name : String
  symbol : String
  balances : Addr n → ℕ
  totalSupply : ℕ
  decimals : ℕ
  transferable : Bool
  distributors : Addr n → Bool
  owner : Addr n

/-- The `_update` override of `src/contracts/src/CustomToken.sol`: while
`transferable` is false, a move between two non-zero addresses requires the
source to be a registered distributor; it then defers to the ERC20 update. -/
def update {n : ℕ} (s : State n) (fromAddr toAddr : Addr n) (value : ℕ) :
    Except TokErr (State n) :=
  if s.transferable = false ∧ fromAddr ≠ 0 ∧ toAddr ≠ 0 ∧
      s.distributors fromAddr = false then
    .error .TransfersDisabled
  else
    (ozUpdate s.balances s.totalSupply fromAddr toAddr value).map fun p =>
      { s with balances := p.1, totalSupply := p.2 }

/-- OpenZeppelin `_transfer` dispatching to this contract's `_update`. -/
def transferInternal {n : ℕ} (s : State n) (fromAddr toAddr : Addr n)
    (value : ℕ) : Except TokErr (State n) :=
  if fromAddr = 0 then .error .InvalidSender
  else if toAddr = 0 then .error .InvalidReceiver
  else update s fromAddr toAddr value

/-- Public ERC20 `transfer`: the caller is the source. -/
def transfer {n : ℕ} (s : State n) (caller toAddr : Addr n) (value : ℕ) :
    Except TokErr (State n) :=
  transferInternal s caller toAddr value

/-- OpenZeppelin `_mint` dispatching to this contract's `_update`. -/
def mintInternal {n : ℕ} (s : State n) (toAddr : Addr n) (value : ℕ) :
    Except TokErr (State n) :=
  if toAddr = 0 then .error .InvalidReceiver
  else update s 0 toAddr value

/-- Constructor of `src/contracts/src/CustomToken.sol`: records the metadata,
mints `totalSupply_ * 10 ^ decimals_` to the initial owner (Ownable rejects a
zero owner) and registers the owner as the sole distributor. -/
def create {n : ℕ} (name_ symbol_ : String) (totalSupply_ decimals_ : ℕ)
    (initialOwner : Addr n) (isTransferable : Bool) :
    Except TokErr (State n) :=
  if initialOwner = 0 then .error .InvalidOwner
  else
    (mintInternal
        { name := name_, symbol := symbol_, balances := fun _ => 0,
          totalSupply := 0, decimals := decimals_,
          transferable := isTransferable, distributors := fun _ => false,
          owner := initialOwner }
        initialOwner (totalSupply_ * 10 ^ decimals_)).map fun s1 =>
      { s1 with distributors := Function.update s1.distributors initialOwner true }

/-- Owner-only `setTransferable`. -/
def setTransferable {n : ℕ} (s : State n) (caller : Addr n)
    (isTransferable : Bool) : Except TokErr (State n) :=
  if caller = s.owner then .ok { s with transferable := isTransferable }
  else .error .NotAuthorized

/-- Owner-only `setDistributor`. -/
def setDistributor {n : ℕ} (s : State n) (caller distributor : Addr n)
    (status : Bool) : Except TokErr (State n) :=
  if caller = s.owner then
    .ok { s with distributors := Function.update s.distributors distributor status }
  else .error .NotAuthorized

/-- Loop body of `distributeTokens`: one `_transfer` from the caller per
recipient-amount pair, in input order. -/
def distributeLoop {n : ℕ} (s : State n) (caller : Addr n) :
    List (Addr n × ℕ) → Except TokErr (State n)
  | [] => .ok s
  | (r, a) :: rest =>
      match transferInternal s caller r a with
      | .error e => .error e
      | .ok s1 => distributeLoop s1 caller rest

/-- The `distributeTokens` entry point: the caller must be a registered
distributor, the two arrays must have the same length, then the loop runs. -/
def distributeTokens {n : ℕ} (s : State n) (caller : Addr n)
    (recipients : List (Addr n)) (amounts : List ℕ) :
    Except TokErr (State n) :=
  if s.distributors caller = false then .error .NotAuthorized
  else if recipients.length ≠ amounts.length then .error .LengthMismatch
  else distributeLoop s caller (recipients.zip amounts)

/-- External calls of this token that move or guard balances. -/
inductive Op (n : ℕ) where
  | transfer (caller toAddr : Addr n) (value : ℕ)
  | distribute (caller : Addr n) (recipients : List (Addr n)) (amounts : List ℕ)
  | setTransferable (caller : Addr n) (b : Bool)
  | setDistributor (caller distributor : Addr n) (status : Bool)

/-- Result of one external call. -/
def runOp {n : ℕ} (s : State n) : Op n → Except TokErr (State n)
  | .transfer c t v => transfer s c t v
  | .distribute c rs as => distributeTokens s c rs as
  | .setTransferable c b => setTransferable s c b
  | .setDistributor c d b => setDistributor s c d b

/-- Transactional application: a reverted call leaves the state untouched. -/
def applyOp {n : ℕ} (s : State n) (op : Op n) : State n :=
  match runOp s op with
  | .ok s1 => s1
  | .error _ => s

/-- A whole sequence of external calls. -/
def run {n : ℕ} (s : State n) (ops : List (Op n)) : State n :=
  ops.foldl applyOp s

end CustomToken

namespace FactoryToken

/-- Storage of the CustomToken contract in `contracts/CustomToken.sol`, the
variant that `TokenFactory.sol` imports and deploys. -/
structure State (n : ℕ) where
  name : String
  symbol : String
  balances : Addr n → ℕ
  totalSupply : ℕ
  decimals : ℕ
  transferable : Bool
  owner : Addr n

/-- The `_update` override of `contracts/CustomToken.sol`: every move whose
source is non-zero is rejected while `transferable` is false (only mints are
exempt; burns are not, and there is no distributor escape hatch). -/
def update {n : ℕ} (s : State n) (fromAddr toAddr : Addr n) (value : ℕ) :
    Except TokErr (State n) :=
  if fromAddr ≠ 0 ∧ s.transferable = false then .error .TransfersDisabled
  else
    (ozUpdate s.balances s.totalSupply fromAddr toAddr value).map fun p =>
      { s with balances := p.1, totalSupply := p.2 }

/-- OpenZeppelin `_transfer` dispatching to this contract's `_update`. -/
def transferInternal {n : ℕ} (s : State n) (fromAddr toAddr : Addr n)
    (value : ℕ) : Except TokErr (State n) :=
  if fromAddr = 0 then .error .InvalidSender
  else if toAddr = 0 then .error .InvalidReceiver
  else update s fromAddr toAddr value

/-- Public ERC20 `transfer`: the caller is the source. -/
def transfer {n : ℕ} (s : State n) (caller toAddr : Addr n) (value : ℕ) :
    Except TokErr (State n) :=
  transferInternal s caller toAddr value

/-- OpenZeppelin `_mint` dispatching to this contract's `_update`. -/
def mintInternal {n : ℕ} (s : State n) (toAddr : Addr n) (value : ℕ) :
    Except TokErr (State n) :=
  if toAddr = 0 then .error .InvalidReceiver
  else update s 0 toAddr value

/-- Owner-only public `mint`. -/
def mint {n : ℕ} (s : State n) (caller toAddr : Addr n) (value : ℕ) :
    Except TokErr (State n) :=
  if caller = s.owner then mintInternal s toAddr value
  else .error .NotAuthorized

/-- Owner-only `setTransferable`. -/
def setTransferable {n : ℕ} (s : State n) (caller : Addr n)
    (isTransferable : Bool) : Except TokErr (State n) :=
  if caller = s.owner then .ok { s with transferable := isTransferable }
  else .error .NotAuthorized

/-- Constructor of `contracts/CustomToken.sol`: mints `initialSupply` — with
no `10 ^ decimals` scaling — to the creator, who becomes the owner. -/
def create {n : ℕ} (name : String) (symbol : String)
    (initialSupply tokenDecimals : ℕ) (isTransferable : Bool)
    (creator : Addr n) : Except TokErr (State n) :=
  if creator = 0 then .error .InvalidOwner
  else
    mintInternal
      { name := name, symbol := symbol, balances := fun _ => 0,
        totalSupply := 0, decimals := tokenDecimals,
        transferable := isTransferable, owner := creator }
      creator initialSupply

/-- External calls of the factory-deployed token. -/
inductive Op (n : ℕ) where
  | transfer (caller toAddr : Addr n) (value : ℕ)
  | mint (caller toAddr : Addr n) (value : ℕ)
  | setTransferable (caller : Addr n) (b : Bool)

/-- Result of one external call. -/
def runOp {n : ℕ} (s : State n) : Op n → Except TokErr (State n)
  | .transfer c t v => transfer s c t v
  | .mint c t v => mint s c t v
  | .setTransferable c b => setTransferable s c b

/-- Transactional application: a reverted call leaves the state untouched. -/
def applyOp {n : ℕ} (s : State n) (op : Op n) : State n :=
  match runOp s op with
  | .ok s1 => s1
  | .error _ => s

/-- A whole sequence of external calls. -/
def run {n : ℕ} (s : State n) (ops : List (Op n)) : State n :=
  ops.foldl applyOp s

/-- Amount minted by one call: the value of a successful `mint`, else zero. -/
def mintDelta {n : ℕ} (s : State n) (op : Op n) : ℕ :=
  match op, runOp s op with
  | .mint _ _ v, .ok _ => v
  | _, _ => 0

/-- Total amount minted by the successful `mint` calls of a call sequence. -/
def mintedDuring {n : ℕ} (s : State n) : List (Op n) → ℕ
  | [] => 0
  | op :: ops => mintDelta s op + mintedDuring (applyOp s op) ops

end FactoryToken

namespace TokenFactory

/-- Storage of `TokenFactory.sol`: deployed tokens are indexed by their
position in `tokens`, standing in for their contract addresses. -/
structure State (n : ℕ) where
  tokens : List (FactoryToken.State n)
  creatorTokens : Addr n → List ℕ

/-- Freshly deployed factory. -/
def init (n : ℕ) : State n :=
  { tokens := [], creatorTokens := fun _ => [] }

/-- The `createToken` entry point: deploys a new `contracts/CustomToken.sol`
instance owned by the caller and records it globally and per creator. -/
def createToken {n : ℕ} (fs : State n) (caller : Addr n)
    (name symbol : String) (initialSupply : ℕ) (decimals : ℕ)
    (transferable : Bool) : Except TokErr (State n × ℕ) :=
  (FactoryToken.create name symbol initialSupply decimals transferable
      caller).map fun t =>
    ({ tokens := fs.tokens ++ [t],
       creatorTokens := Function.update fs.creatorTokens caller
         (fs.creatorTokens caller ++ [fs.tokens.length]) },
     fs.tokens.length)

end TokenFactory

/-! ## Governance (`src/contracts/Governance.sol`) -/

/-- Revert reasons of the Governance contract. -/
inductive GovErr where
  | ProposalNotFound
  | VotingClosed
  | VotingNotEnded
  | AlreadyExecuted
  | AlreadyVoted
  | NoVotingPower
  | InvalidToken
  | InvalidQuorum
  | InvalidDuration
  | NotATokenHolder
  | QuorumNotReached
deriving DecidableEq, Repr

/-- The read surface Governance consumes from the chain at the moment of a
call: per token address, the current `balanceOf` each holder and the current
`totalSupply`.  Passing a fresh view to every call models live reads. -/
structure ChainView (n : ℕ) where
  balanceOf : Addr n → Addr n → ℕ
  totalSupply : Addr n → ℕ

/-- The `Proposal` struct of `Governance.sol`. -/
structure Proposal (n : ℕ) where
  id : ℕ
  title : String
  description : String
  tokenAddress : Addr n
  creator : Addr n
  startTime : ℕ
  endTime : ℕ
  quorum : ℕ
  votesFor : ℕ
  votesAgainst : ℕ
  executed : Bool

/-- Solidity mapping default for `Proposal`: all fields zeroed. -/
def Proposal.zero (n : ℕ) : Proposal n :=
  { id := 0, title := "", description := "", tokenAddress := 0, creator := 0,
    startTime := 0, endTime := 0, quorum := 0, votesFor := 0,
    votesAgainst := 0, executed := false }

/-- The `Vote` struct of `Governance.sol` (one ballot). -/
structure Vote where
  voted : Bool
  support : Bool
  weight : ℕ
deriving DecidableEq, Repr

/-- Solidity mapping default for `Vote`: the not-voted record. -/
def Vote.zero : Vote :=
  { voted := false, support := false, weight := 0 }

/-- Storage of `Governance.sol`: the proposal counter and the two mappings,
modelled as total functions returning the mapping defaults off-support. -/
structure GovState (n : ℕ) where
  proposalCount : ℕ
  proposals : ℕ → Proposal n
  votes : ℕ → Addr n → Vote

/-- Freshly deployed Governance contract. -/
def govInit (n : ℕ) : GovState n :=
  { proposalCount := 0, proposals := fun _ => Proposal.zero n,
    votes := fun _ _ => Vote.zero }

/-- The `createProposal` entry point.  The quorum is the floor of
`totalSupply * quorumPercent / 100` over the supply read at creation time;
the new id is the incremented counter. -/
def createProposal {n : ℕ} (s : GovState n) (now : ℕ) (v : ChainView n)
    (sender : Addr n) (title description : String) (tokenAddress : Addr n)
    (duration quorumPercent : ℕ) : Except GovErr (GovState n × ℕ) :=
  if tokenAddress = 0 then .error .InvalidToken
  else if ¬(0 < quorumPercent ∧ quorumPercent ≤ 100) then .error .InvalidQuorum
  else if duration = 0 then .error .InvalidDuration
  else if v.balanceOf tokenAddress sender = 0 then .error .NotATokenHolder
  else
    .ok ({ s with
            proposalCount := s.proposalCount + 1,
            proposals := Function.update s.proposals (s.proposalCount + 1)
              { id := s.proposalCount + 1, title := title,
                description := description,
                tokenAddress := tokenAddress, creator := sender,
                startTime := now, endTime := now + duration,
                quorum := v.totalSupply tokenAddress * quorumPercent / 100,
                votesFor := 0, votesAgainst := 0,
                executed := false } },
         s.proposalCount + 1)

/-- The `castVote` entry point.  Checks run in source order: existence
(`proposal.id == proposalId`), voting window, executed flag, prior ballot,
then the live balance read that also becomes the recorded weight. -/
def castVote {n : ℕ} (s : GovState n) (now : ℕ) (v : ChainView n)
    (sender : Addr n) (proposalId : ℕ) (support : Bool) :
    Except GovErr (GovState n) :=
  if (s.proposals proposalId).id ≠ proposalId then .error .ProposalNotFound
  else if (s.proposals proposalId).endTime < now then .error .VotingClosed
  else if (s.proposals proposalId).executed then .error .AlreadyExecuted
  else if (s.votes proposalId sender).voted then .error .AlreadyVoted
  else if v.balanceOf (s.proposals proposalId).tokenAddress sender = 0 then
    .error .NoVotingPower
  else
    .ok { s with
      votes := Function.update s.votes proposalId
        (Function.update (s.votes proposalId) sender
          { voted := true, support := support,
            weight := v.balanceOf (s.proposals proposalId).tokenAddress sender }),
      proposals := Function.update s.proposals proposalId
        (if support then
          { s.proposals proposalId with
              votesFor := (s.proposals proposalId).votesFor +
                v.balanceOf (s.proposals proposalId).tokenAddress sender }
         else
          { s.proposals proposalId with
              votesAgainst := (s.proposals proposalId).votesAgainst +
                v.balanceOf (s.proposals proposalId).tokenAddress sender }) }

/-- The `executeProposal` entry point.  Checks run in source order:
existence, `now > endTime`, executed flag, quorum; on success the proposal
is marked executed and the emitted outcome is `votesFor > votesAgainst`. -/
def executeProposal {n : ℕ} (s : GovState n) (now : ℕ) (proposalId : ℕ) :
    Except GovErr (GovState n × Bool) :=
  if (s.proposals proposalId).id ≠ proposalId then .error .ProposalNotFound
  else if ¬((s.proposals proposalId).endTime < now) then .error .VotingNotEnded
  else if (s.proposals proposalId).executed then .error .AlreadyExecuted
  else if (s.proposals proposalId).votesFor + (s.proposals proposalId).votesAgainst
      < (s.proposals proposalId).quorum then .error .QuorumNotReached
  else
    .ok ({ s with
            proposals := Function.update s.proposals proposalId
              { s.proposals proposalId with executed := true } },
         decide ((s.proposals proposalId).votesAgainst
            < (s.proposals proposalId).votesFor))

/-- The `hasVoted` read. -/
def hasVoted {n : ℕ} (s : GovState n) (proposalId : ℕ) (voter : Addr n) :
    Bool :=
  (s.votes proposalId voter).voted

/-- The `getVote` read: never fails, returns the stored (possibly default)
ballot record. -/
def getVote {n : ℕ} (s : GovState n) (proposalId : ℕ) (voter : Addr n) :
    Vote :=
  s.votes proposalId voter

/-- The `getProposal` read: fails unless the stored record's id matches. -/
def getProposal {n : ℕ} (s : GovState n) (proposalId : ℕ) :
    Except GovErr (Proposal n) :=
  if (s.proposals proposalId).id = proposalId then .ok (s.proposals proposalId)
  else .error .ProposalNotFound

/-- External Governance calls; each carries the block timestamp and the
chain view (token balances and supplies) current at that call. -/
inductive GovOp (n : ℕ) where
  | createProposal (now : ℕ) (v : ChainView n) (sender : Addr n)
      (title description : String) (tokenAddress : Addr n)
      (duration quorumPercent : ℕ)
  | castVote (now : ℕ) (v : ChainView n) (sender : Addr n) (proposalId : ℕ)
      (support : Bool)
  | executeProposal (now : ℕ) (proposalId : ℕ)

/-- Transactional application of one Governance call: a revert leaves the
contract storage untouched. -/
def govApply {n : ℕ} (s : GovState n) : GovOp n → GovState n
  | .createProposal now v sender title description tokenAddress duration qp =>
      match createProposal s now v sender title description tokenAddress
          duration qp with
      | .ok p => p.1
      | .error _ => s
  | .castVote now v sender pid support =>
      match castVote s now v sender pid support with
      | .ok s1 => s1
      | .error _ => s
  | .executeProposal now pid =>
      match executeProposal s now pid with
      | .ok p => p.1
      | .error _ => s

/-- A whole sequence of Governance calls. -/
def govRun {n : ℕ} (s : GovState n) (ops : List (GovOp n)) : GovState n :=
  ops.foldl govApply s

/-! ## Ledger sums -/

/-- Splitting the sum of all balances at one address. -/
lemma sum_eq_add_erase {n : ℕ} (g : Addr n → ℕ) (i : Addr n) :
    ∑ a, g a = g i + ∑ a ∈ Finset.univ.erase i, g a :=
  (Finset.add_sum_erase _ g (Finset.mem_univ i)).symm

/-- Summing a pointwise-updated balance map. -/
lemma sum_update {n : ℕ} (g : Addr n → ℕ) (i : Addr n) (b : ℕ) :
    ∑ a, Function.update g i b a = b + ∑ a ∈ Finset.univ.erase i, g a := by
  rw [Finset.sum_update_of_mem (Finset.mem_univ i), Finset.erase_eq]

/-- An ERC20 update between two non-zero addresses moves value around
without changing the balance sum or the total supply. -/
lemma ozUpdate_move_sum {n : ℕ} {bal : Addr n → ℕ} {ts : ℕ}
    {fromAddr toAddr : Addr n} {value : ℕ} {bal2 : Addr n → ℕ} {ts2 : ℕ}
    (hf : fromAddr ≠ 0) (ht : toAddr ≠ 0)
    (h : ozUpdate bal ts fromAddr toAddr value = .ok (bal2, ts2)) :
    (∑ a, bal2 a) = (∑ a, bal a) ∧ ts2 = ts := by
  unfold ozUpdate at h
  rw [if_neg hf] at h
  by_cases hlt : bal fromAddr < value
  · rw [if_pos hlt] at h
    exact absurd h (by simp)
  · rw [if_neg hlt, if_neg ht] at h
    simp only [Except.ok.injEq, Prod.mk.injEq] at h
    obtain ⟨hb, hts⟩ := h
    subst hb hts
    constructor
    · have h1 := sum_update (Function.update bal fromAddr (bal fromAddr - value))
        toAddr (Function.update bal fromAddr (bal fromAddr - value) toAddr + value)
      have h2 := sum_eq_add_erase
        (Function.update bal fromAddr (bal fromAddr - value)) toAddr
      have h3 := sum_update bal fromAddr (bal fromAddr - value)
      have h4 := sum_eq_add_erase bal fromAddr
      omega
    · rfl

/-- An ERC20 mint to a non-zero address adds the minted value to both the
balance sum and the total supply. -/
lemma ozUpdate_mint_sum {n : ℕ} {bal : Addr n → ℕ} {ts : ℕ}
    {toAddr : Addr n} {value : ℕ} {bal2 : Addr n → ℕ} {ts2 : ℕ}
    (ht : toAddr ≠ 0)
    (h : ozUpdate bal ts 0 toAddr value = .ok (bal2, ts2)) :
    (∑ a, bal2 a) = (∑ a, bal a) + value ∧ ts2 = ts + value := by
  unfold ozUpdate at h
  rw [if_pos rfl, if_neg ht] at h
  simp only [Except.ok.injEq, Prod.mk.injEq] at h
  obtain ⟨hb, hts⟩ := h
  subst hb hts
  refine ⟨?_, rfl⟩
  have h1 := sum_update bal toAddr (bal toAddr + value)
  have h2 := sum_eq_add_erase bal toAddr
  omega

namespace CustomToken

/-- A successful `_update` between two non-zero addresses preserves the
balance sum and the supply of the distributor-gated token. -/
lemma update_move_sum {n : ℕ} {s s2 : State n} {fromAddr toAddr : Addr n}
    {value : ℕ} (hf : fromAddr ≠ 0) (ht : toAddr ≠ 0)
    (h : update s fromAddr toAddr value = .ok s2) :
    (∑ a, s2.balances a) = (∑ a, s.balances a) ∧
      s2.totalSupply = s.totalSupply := by
  unfold update at h
  split at h
  · exact absurd h (by simp)
  · cases hoz : ozUpdate s.balances s.totalSupply fromAddr toAddr value with
    | error e => rw [hoz] at h; exact absurd h (by simp [Except.map])
    | ok p =>
        rw [hoz] at h
        simp only [Except.map, Except.ok.injEq] at h
        subst h
        exact ozUpdate_move_sum hf ht hoz

/-- A successful `_transfer` preserves the balance sum and the supply. -/
lemma transferInternal_sum {n : ℕ} {s s2 : State n}
    {fromAddr toAddr : Addr n} {value : ℕ}
    (h : transferInternal s fromAddr toAddr value = .ok s2) :
    (∑ a, s2.balances a) = (∑ a, s.balances a) ∧
      s2.totalSupply = s.totalSupply := by
  unfold transferInternal at h
  by_cases hf : fromAddr = 0
  · rw [if_pos hf] at h; exact absurd h (by simp)
  · rw [if_neg hf] at h
    by_cases ht : toAddr = 0
    · rw [if_pos ht] at h; exact absurd h (by simp)
    · rw [if_neg ht] at h; exact update_move_sum hf ht h

/-- The distribute loop preserves the balance sum and the supply. -/
lemma distributeLoop_sum {n : ℕ} {caller : Addr n} :
    ∀ (pairs : List (Addr n × ℕ)) (s s2 : State n),
      distributeLoop s caller pairs = .ok s2 →
      (∑ a, s2.balances a) = (∑ a, s.balances a) ∧
        s2.totalSupply = s.totalSupply
  | [], s, s2, h => by
      unfold distributeLoop at h
      simp only [Except.ok.injEq] at h
      subst h
      exact ⟨rfl, rfl⟩
  | (r, a) :: rest, s, s2, h => by
      unfold distributeLoop at h
      cases htr : transferInternal s caller r a with
      | error e => rw [htr] at h; exact absurd h (by simp)
      | ok s1 =>
          rw [htr] at h
          have h1 := transferInternal_sum htr
          have h2 := distributeLoop_sum rest s1 s2 h
          omega

/-- Every external call of the distributor-gated token — committed or
reverted — preserves the balance sum and the total supply. -/
lemma applyOp_conserve {n : ℕ} (s : State n) (op : Op n) :
    (∑ a, (applyOp s op).balances a) = (∑ a, s.balances a) ∧
      (applyOp s op).totalSupply = s.totalSupply := by
  cases op with
  | transfer c t v =>
      cases htr : TokenVote.CustomToken.transfer s c t v with
      | error e => simp [applyOp, runOp, htr]
      | ok s1 =>
          have h2 : transferInternal s c t v = .ok s1 := htr
          simp only [applyOp, runOp, htr]
          exact transferInternal_sum h2
  | distribute c rs as =>
      cases hd : distributeTokens s c rs as with
      | error e => simp [applyOp, runOp, hd]
      | ok s1 =>
          simp only [applyOp, runOp, hd]
          unfold distributeTokens at hd
          split at hd
          · exact absurd hd (by simp)
          · split at hd
            · exact absurd hd (by simp)
            · exact distributeLoop_sum (rs.zip as) s s1 hd
  | setTransferable c b =>
      by_cases hc : c = s.owner
      · simp [applyOp, runOp, setTransferable, if_pos hc]
      · simp [applyOp, runOp, setTransferable, if_neg hc]
  | setDistributor c d b =>
      by_cases hc : c = s.owner
      · simp [applyOp, runOp, setDistributor, if_pos hc]
      · simp [applyOp, runOp, setDistributor, if_neg hc]

/-- A whole call sequence preserves the balance sum. -/
lemma run_sum {n : ℕ} (ops : List (Op n)) (s : State n) :
    (∑ a, (run s ops).balances a) = ∑ a, s.balances a := by
  induction ops generalizing s with
  | nil => rfl
  | cons op ops ih =>
      have h1 := applyOp_conserve s op
      calc (∑ a, (run (applyOp s op) ops).balances a)
          = ∑ a, (applyOp s op).balances a := ih (applyOp s op)
        _ = ∑ a, s.balances a := h1.1

/-- A successful `_mint` adds the minted value to the balance sum and the
total supply. -/
lemma mintInternal_sum {n : ℕ} {s s2 : State n} {toAddr : Addr n} {value : ℕ}
    (h : mintInternal s toAddr value = .ok s2) :
    (∑ a, s2.balances a) = (∑ a, s.balances a) + value ∧
      s2.totalSupply = s.totalSupply + value := by
  unfold mintInternal at h
  by_cases ht : toAddr = 0
  · rw [if_pos ht] at h; exact absurd h (by simp)
  · rw [if_neg ht] at h
    unfold update at h
    rw [if_neg (by simp)] at h
    cases hoz : ozUpdate s.balances s.totalSupply 0 toAddr value with
    | error e => rw [hoz] at h; exact absurd h (by simp [Except.map])
    | ok p =>
        rw [hoz] at h
        simp only [Except.map, Except.ok.injEq] at h
        subst h
        exact ozUpdate_mint_sum ht hoz

/-- The constructor mints exactly `totalSupply_ * 10 ^ decimals_`, all of it
to the initial owner. -/
lemma create_sum {n : ℕ} {nm sy : String} {ts d : ℕ} {o : Addr n} {tr : Bool}
    {s0 : State n} (h : create nm sy ts d o tr = .ok s0) :
    (∑ a, s0.balances a) = ts * 10 ^ d := by
  unfold create at h
  by_cases ho : o = 0
  · rw [if_pos ho] at h; exact absurd h (by simp)
  · rw [if_neg ho] at h
    cases hm : mintInternal
        { name := nm, symbol := sy, balances := fun _ => 0,
          totalSupply := 0, decimals := d, transferable := tr,
          distributors := fun _ => false, owner := o }
        o (ts * 10 ^ d) with
    | error e => rw [hm] at h; exact absurd h (by simp [Except.map])
    | ok s1 =>
        rw [hm] at h
        simp only [Except.map, Except.ok.injEq] at h
        subst h
        have h1 := mintInternal_sum hm
        have h2 : (∑ a, s1.balances a) = 0 + ts * 10 ^ d := by
          rw [h1.1]
          simp
        exact h2.trans (by omega)

end CustomToken

namespace FactoryToken

/-- A successful `_update` between two non-zero addresses preserves the
balance sum and the supply of the factory-deployed token. -/
lemma update_move_sum_ft {n : ℕ} {s s2 : State n} {fromAddr toAddr : Addr n}
    {value : ℕ} (hf : fromAddr ≠ 0) (ht : toAddr ≠ 0)
    (h : update s fromAddr toAddr value = .ok s2) :
    (∑ a, s2.balances a) = (∑ a, s.balances a) ∧
      s2.totalSupply = s.totalSupply := by
  unfold update at h
  split at h
  · exact absurd h (by simp)
  · cases hoz : ozUpdate s.balances s.totalSupply fromAddr toAddr value with
    | error e => rw [hoz] at h; exact absurd h (by simp [Except.map])
    | ok p =>
        rw [hoz] at h
        simp only [Except.map, Except.ok.injEq] at h
        subst h
        exact ozUpdate_move_sum hf ht hoz

/-- A successful `_transfer` preserves the balance sum and the supply. -/
lemma transferInternal_sum_ft {n : ℕ} {s s2 : State n}
    {fromAddr toAddr : Addr n} {value : ℕ}
    (h : transferInternal s fromAddr toAddr value = .ok s2) :
    (∑ a, s2.balances a) = (∑ a, s.balances a) ∧
      s2.totalSupply = s.totalSupply := by
  unfold transferInternal at h
  by_cases hf : fromAddr = 0
  · rw [if_pos hf] at h; exact absurd h (by simp)
  · rw [if_neg hf] at h
    by_cases ht : toAddr = 0
    · rw [if_pos ht] at h; exact absurd h (by simp)
    · rw [if_neg ht] at h; exact update_move_sum_ft hf ht h

/-- A successful `_mint` adds the minted value to the balance sum and the
total supply. -/
lemma mintInternal_sum_ft {n : ℕ} {s s2 : State n} {toAddr : Addr n} {value : ℕ}
    (h : mintInternal s toAddr value = .ok s2) :
    (∑ a, s2.balances a) = (∑ a, s.balances a) + value ∧
      s2.totalSupply = s.totalSupply + value := by
  unfold mintInternal at h
  by_cases ht : toAddr = 0
  · rw [if_pos ht] at h; exact absurd h (by simp)
  · rw [if_neg ht] at h
    unfold update at h
    rw [if_neg (by simp)] at h
    cases hoz : ozUpdate s.balances s.totalSupply 0 toAddr value with
    | error e => rw [hoz] at h; exact absurd h (by simp [Except.map])
    | ok p =>
        rw [hoz] at h
        simp only [Except.map, Except.ok.injEq] at h
        subst h
        exact ozUpdate_mint_sum ht hoz

/-- One call of the factory-deployed token moves the balance sum and the
total supply in lockstep. -/
lemma applyOp_step {n : ℕ} (s : State n) (op : Op n) :
    (∑ a, (applyOp s op).balances a) + s.totalSupply
      = (∑ a, s.balances a) + (applyOp s op).totalSupply := by
  cases op with
  | transfer c t v =>
      cases htr : TokenVote.FactoryToken.transfer s c t v with
      | error e => simp [applyOp, runOp, htr]
      | ok s1 =>
          have h2 : transferInternal s c t v = .ok s1 := htr
          have h3 := transferInternal_sum_ft h2
          simp only [applyOp, runOp, htr]
          omega
  | mint c t v =>
      cases hm : TokenVote.FactoryToken.mint s c t v with
      | error e => simp [applyOp, runOp, hm]
      | ok s1 =>
          unfold mint at hm
          by_cases hc : c = s.owner
          · rw [if_pos hc] at hm
            have h3 := mintInternal_sum_ft hm
            simp only [applyOp, runOp, TokenVote.FactoryToken.mint, if_pos hc, hm]
            omega
          · rw [if_neg hc] at hm
            exact absurd hm (by simp)
  | setTransferable c b =>
      by_cases hc : c = s.owner
      · simp [applyOp, runOp, setTransferable, if_pos hc]
      · simp [applyOp, runOp, setTransferable, if_neg hc]

/-- The supply change of one call is exactly its mint contribution. -/
lemma applyOp_minted {n : ℕ} (s : State n) (op : Op n) :
    (applyOp s op).totalSupply = s.totalSupply + mintDelta s op := by
  cases op with
  | transfer c t v =>
      cases htr : TokenVote.FactoryToken.transfer s c t v with
      | error e => simp [applyOp, runOp, mintDelta, htr]
      | ok s1 =>
          have h2 : transferInternal s c t v = .ok s1 := htr
          have h3 := transferInternal_sum_ft h2
          simp only [applyOp, runOp, mintDelta, htr]
          omega
  | mint c t v =>
      cases hm : TokenVote.FactoryToken.mint s c t v with
      | error e => simp [applyOp, runOp, mintDelta, hm]
      | ok s1 =>
          have h4 : runOp s (.mint c t v) = .ok s1 := hm
          unfold mint at hm
          by_cases hc : c = s.owner
          · rw [if_pos hc] at hm
            have h3 := mintInternal_sum_ft hm
            simp only [applyOp, runOp, mintDelta, h4, TokenVote.FactoryToken.mint,
              if_pos hc, hm]
            omega
          · rw [if_neg hc] at hm
            exact absurd hm (by simp)
  | setTransferable c b =>
      by_cases hc : c = s.owner
      · simp [applyOp, runOp, mintDelta, setTransferable, if_pos hc]
      · simp [applyOp, runOp, mintDelta, setTransferable, if_neg hc]

/-- Over a whole call sequence the supply grows by exactly the total
successfully minted amount. -/
lemma run_minted {n : ℕ} (ops : List (Op n)) (s : State n) :
    (run s ops).totalSupply = s.totalSupply + mintedDuring s ops := by
  induction ops generalizing s with
  | nil => simp [run, mintedDuring]
  | cons op ops ih =>
      have h1 := applyOp_minted s op
      have h2 := ih (applyOp s op)
      show (run (applyOp s op) ops).totalSupply = _
      rw [h2, h1]
      simp [mintedDuring]
      omega

/-- Over a whole call sequence the balance sum and the supply move in
lockstep. -/
lemma run_step {n : ℕ} (ops : List (Op n)) (s : State n) :
    (∑ a, (run s ops).balances a) + s.totalSupply
      = (∑ a, s.balances a) + (run s ops).totalSupply := by
  induction ops generalizing s with
  | nil => rfl
  | cons op ops ih =>
      have h1 := applyOp_step s op
      have h2 := ih (applyOp s op)
      show (∑ a, (run (applyOp s op) ops).balances a) + s.totalSupply
          = (∑ a, s.balances a) + (run (applyOp s op) ops).totalSupply
      omega

/-- The constructor mints exactly `initialSupply`, unscaled. -/
lemma create_sum_ft {n : ℕ} {nm sy : String} {supply d : ℕ} {tr : Bool}
    {c : Addr n} {t0 : State n}
    (h : create nm sy supply d tr c = .ok t0) :
    (∑ a, t0.balances a) = supply ∧ t0.totalSupply = supply := by
  unfold create at h
  by_cases hc : c = 0
  · rw [if_pos hc] at h; exact absurd h (by simp)
  · rw [if_neg hc] at h
    have h1 := mintInternal_sum_ft h
    constructor
    · have h2 := h1.1
      simpa using h2
    · have h2 := h1.2
      simpa using h2

end FactoryToken


/-! ## Governance: elimination and stability lemmas -/

/-- Characterisation of a successful `createProposal`: all guards passed,
the id is the incremented counter, and the state is extended with the new
proposal record carrying the creation-time quorum. -/
lemma createProposal_ok_elim {n : ℕ} {s s1 : GovState n} {now : ℕ}
    {v : ChainView n} {sender : Addr n} {title description : String}
    {tokenAddress : Addr n} {duration quorumPercent : ℕ} {pid : ℕ}
    (h : createProposal s now v sender title description tokenAddress
        duration quorumPercent = .ok (s1, pid)) :
    tokenAddress ≠ 0 ∧ 0 < quorumPercent ∧ quorumPercent ≤ 100 ∧
    duration ≠ 0 ∧ v.balanceOf tokenAddress sender ≠ 0 ∧
    pid = s.proposalCount + 1 ∧
    s1.proposalCount = s.proposalCount + 1 ∧
    s1.proposals = Function.update s.proposals (s.proposalCount + 1)
      { id := s.proposalCount + 1, title := title,
        description := description, tokenAddress := tokenAddress,
        creator := sender, startTime := now, endTime := now + duration,
        quorum := v.totalSupply tokenAddress * quorumPercent / 100,
        votesFor := 0, votesAgainst := 0, executed := false } ∧
    s1.votes = s.votes := by
  unfold createProposal at h
  split at h
  · exact absurd h (by simp)
  · split at h
    · exact absurd h (by simp)
    · split at h
      · exact absurd h (by simp)
      · split at h
        · exact absurd h (by simp)
        · rename_i h1 h2 h3 h4
          rw [not_not] at h2
          simp only [Except.ok.injEq, Prod.mk.injEq] at h
          obtain ⟨hs, hp⟩ := h
          subst hs
          exact ⟨h1, h2.1, h2.2, h3, h4, hp.symm, rfl, rfl, rfl⟩

/-- Characterisation of a successful `castVote`: all guards passed, the
ballot is recorded with the live balance as weight, and exactly one tally
is increased by that weight. -/
lemma castVote_ok_elim {n : ℕ} {s s1 : GovState n} {now : ℕ}
    {v : ChainView n} {sender : Addr n} {pid : ℕ} {support : Bool}
    (h : castVote s now v sender pid support = .ok s1) :
    (s.proposals pid).id = pid ∧ now ≤ (s.proposals pid).endTime ∧
    (s.proposals pid).executed = false ∧
    (s.votes pid sender).voted = false ∧
    v.balanceOf (s.proposals pid).tokenAddress sender ≠ 0 ∧
    s1.proposalCount = s.proposalCount ∧
    s1.proposals = Function.update s.proposals pid
      (if support then
        { s.proposals pid with
            votesFor := (s.proposals pid).votesFor +
              v.balanceOf (s.proposals pid).tokenAddress sender }
       else
        { s.proposals pid with
            votesAgainst := (s.proposals pid).votesAgainst +
              v.balanceOf (s.proposals pid).tokenAddress sender }) ∧
    s1.votes = Function.update s.votes pid
      (Function.update (s.votes pid) sender
        { voted := true, support := support,
          weight := v.balanceOf (s.proposals pid).tokenAddress sender }) := by
  unfold castVote at h
  split at h
  · exact absurd h (by simp)
  · split at h
    · exact absurd h (by simp)
    · split at h
      · exact absurd h (by simp)
      · split at h
        · exact absurd h (by simp)
        · split at h
          · exact absurd h (by simp)
          · rename_i h1 h2 h3 h4 h5
            rw [not_not] at h1
            simp only [Except.ok.injEq] at h
            subst h
            exact ⟨h1, by omega, by simpa using h3, by simpa using h4, h5,
              rfl, rfl, rfl⟩

/-- Characterisation of a successful `executeProposal`: all guards passed,
the reported outcome is the strict tally comparison, and only the executed
flag changes. -/
lemma executeProposal_ok_elim {n : ℕ} {s s1 : GovState n} {now pid : ℕ}
    {passed : Bool}
    (h : executeProposal s now pid = .ok (s1, passed)) :
    (s.proposals pid).id = pid ∧ (s.proposals pid).endTime < now ∧
    (s.proposals pid).executed = false ∧
    (s.proposals pid).quorum ≤
      (s.proposals pid).votesFor + (s.proposals pid).votesAgainst ∧
    passed = decide ((s.proposals pid).votesAgainst
      < (s.proposals pid).votesFor) ∧
    s1.proposalCount = s.proposalCount ∧
    s1.proposals = Function.update s.proposals pid
      { s.proposals pid with executed := true } ∧
    s1.votes = s.votes := by
  unfold executeProposal at h
  split at h
  · exact absurd h (by simp)
  · split at h
    · exact absurd h (by simp)
    · split at h
      · exact absurd h (by simp)
      · split at h
        · exact absurd h (by simp)
        · rename_i h1 h2 h3 h4
          rw [not_not] at h1
          rw [not_not] at h2
          simp only [Except.ok.injEq, Prod.mk.injEq] at h
          obtain ⟨hs, hp⟩ := h
          subst hs
          exact ⟨h1, h2, by simpa using h3, by omega, hp.symm, rfl, rfl, rfl⟩

/-- A ballot already cast is never modified by any later single call. -/
lemma govApply_ballot_stable {n : ℕ} (s : GovState n) (op : GovOp n)
    (pid : ℕ) (voter : Addr n) (h : (s.votes pid voter).voted = true) :
    (govApply s op).votes pid voter = s.votes pid voter := by
  cases op with
  | createProposal now v sender t dsc ta du qp =>
      cases hc : createProposal s now v sender t dsc ta du qp with
      | error e => simp [govApply, hc]
      | ok p =>
          obtain ⟨s1, pid1⟩ := p
          obtain ⟨-, -, -, -, -, -, -, -, hvot⟩ := createProposal_ok_elim hc
          simp only [govApply, hc]
          rw [hvot]
  | castVote now2 v2 sender2 pid2 sup2 =>
      cases hc : castVote s now2 v2 sender2 pid2 sup2 with
      | error e => simp [govApply, hc]
      | ok s1 =>
          obtain ⟨-, -, -, hnv, -, -, -, hvot⟩ := castVote_ok_elim hc
          simp only [govApply, hc]
          rw [hvot]
          by_cases hp : pid = pid2
          · subst hp
            by_cases hv : voter = sender2
            · subst hv
              rw [h] at hnv
              cases hnv
            · rw [Function.update_same, Function.update_noteq hv]
          · rw [Function.update_noteq hp]
  | executeProposal now2 pid2 =>
      cases hc : executeProposal s now2 pid2 with
      | error e => simp [govApply, hc]
      | ok p =>
          obtain ⟨s1, passed⟩ := p
          obtain ⟨-, -, -, -, -, -, -, hvot⟩ := executeProposal_ok_elim hc
          simp only [govApply, hc]
          rw [hvot]

/-- A ballot already cast survives any later call sequence unchanged. -/
lemma govRun_ballot_stable {n : ℕ} (ops : List (GovOp n)) (s : GovState n)
    (pid : ℕ) (voter : Addr n) (h : (s.votes pid voter).voted = true) :
    (govRun s ops).votes pid voter = s.votes pid voter := by
  induction ops generalizing s with
  | nil => rfl
  | cons op ops ih =>
      have h1 := govApply_ballot_stable s op pid voter h
      have h2 : ((govApply s op).votes pid voter).voted = true := by
        rw [h1]; exact h
      show (govRun (govApply s op) ops).votes pid voter = _
      rw [ih (govApply s op) h2, h1]

/-- A slot that passes the stored-id existence check keeps passing it. -/
lemma govApply_id_stable {n : ℕ} (s : GovState n) (op : GovOp n) (pid : ℕ)
    (h : (s.proposals pid).id = pid) :
    ((govApply s op).proposals pid).id = pid := by
  cases op with
  | createProposal now v sender t dsc ta du qp =>
      cases hc : createProposal s now v sender t dsc ta du qp with
      | error e => simpa [govApply, hc] using h
      | ok p =>
          obtain ⟨s1, pid1⟩ := p
          obtain ⟨-, -, -, -, -, -, -, hprop, -⟩ := createProposal_ok_elim hc
          simp only [govApply, hc]
          rw [hprop]
          by_cases hp : pid = s.proposalCount + 1
          · rw [hp, Function.update_same]
          · rw [Function.update_noteq hp]
            exact h
  | castVote now2 v2 sender2 pid2 sup2 =>
      cases hc : castVote s now2 v2 sender2 pid2 sup2 with
      | error e => simpa [govApply, hc] using h
      | ok s1 =>
          obtain ⟨hid2, -, -, -, -, -, hprop, -⟩ := castVote_ok_elim hc
          simp only [govApply, hc]
          rw [hprop]
          by_cases hp : pid = pid2
          · rw [hp, Function.update_same]
            cases sup2 <;> simp [hid2]
          · rw [Function.update_noteq hp]
            exact h
  | executeProposal now2 pid2 =>
      cases hc : executeProposal s now2 pid2 with
      | error e => simpa [govApply, hc] using h
      | ok p =>
          obtain ⟨s1, passed⟩ := p
          obtain ⟨hid2, -, -, -, -, -, hprop, -⟩ := executeProposal_ok_elim hc
          simp only [govApply, hc]
          rw [hprop]
          by_cases hp : pid = pid2
          · rw [hp, Function.update_same]
            simpa using hid2
          · rw [Function.update_noteq hp]
            exact h

/-- A slot that passes the stored-id existence check still passes it after
any call sequence. -/
lemma govRun_id_stable {n : ℕ} (ops : List (GovOp n)) (s : GovState n)
    (pid : ℕ) (h : (s.proposals pid).id = pid) :
    ((govRun s ops).proposals pid).id = pid := by
  induction ops generalizing s with
  | nil => exact h
  | cons op ops ih =>
      exact ih (govApply s op) (govApply_id_stable s op pid h)

/-- For an already-allocated slot, one call never changes the stored quorum
and never shrinks the counter below it. -/
lemma govApply_meta_stable {n : ℕ} (s : GovState n) (op : GovOp n) (pid : ℕ)
    (hle : pid ≤ s.proposalCount) :
    pid ≤ (govApply s op).proposalCount ∧
    ((govApply s op).proposals pid).quorum = (s.proposals pid).quorum := by
  cases op with
  | createProposal now v sender t dsc ta du qp =>
      cases hc : createProposal s now v sender t dsc ta du qp with
      | error e =>
          simp only [govApply, hc]
          exact ⟨hle, trivial⟩
      | ok p =>
          obtain ⟨s1, pid1⟩ := p
          obtain ⟨-, -, -, -, -, -, hcount, hprop, -⟩ :=
            createProposal_ok_elim hc
          have hne : pid ≠ s.proposalCount + 1 := by omega
          simp only [govApply, hc]
          rw [hcount, hprop, Function.update_noteq hne]
          exact ⟨by omega, rfl⟩
  | castVote now2 v2 sender2 pid2 sup2 =>
      cases hc : castVote s now2 v2 sender2 pid2 sup2 with
      | error e =>
          simp only [govApply, hc]
          exact ⟨hle, trivial⟩
      | ok s1 =>
          obtain ⟨-, -, -, -, -, hcount, hprop, -⟩ := castVote_ok_elim hc
          simp only [govApply, hc]
          rw [hcount, hprop]
          refine ⟨hle, ?_⟩
          by_cases hp : pid = pid2
          · rw [hp, Function.update_same]
            cases sup2 <;> simp
          · rw [Function.update_noteq hp]
  | executeProposal now2 pid2 =>
      cases hc : executeProposal s now2 pid2 with
      | error e =>
          simp only [govApply, hc]
          exact ⟨hle, trivial⟩
      | ok p =>
          obtain ⟨s1, passed⟩ := p
          obtain ⟨-, -, -, -, -, hcount, hprop, -⟩ :=
            executeProposal_ok_elim hc
          simp only [govApply, hc]
          rw [hcount, hprop]
          refine ⟨hle, ?_⟩
          by_cases hp : pid = pid2
          · rw [hp, Function.update_same]
          · rw [Function.update_noteq hp]

/-- For an already-allocated slot, the stored quorum survives any call
sequence and the counter never drops below the slot. -/
lemma govRun_meta_stable {n : ℕ} (ops : List (GovOp n)) (s : GovState n)
    (pid : ℕ) (hle : pid ≤ s.proposalCount) :
    pid ≤ (govRun s ops).proposalCount ∧
    ((govRun s ops).proposals pid).quorum = (s.proposals pid).quorum := by
  induction ops generalizing s with
  | nil => exact ⟨hle, rfl⟩
  | cons op ops ih =>
      have h1 := govApply_meta_stable s op pid hle
      have h2 := ih (govApply s op) h1.1
      exact ⟨h2.1, h2.2.trans h1.2⟩

/-! ## Governance: tally-ballot coherence -/

/-- Weight a ballot contributes to `votesFor`. -/
def Vote.forWeight (vt : Vote) : ℕ :=
  if vt.voted && vt.support then vt.weight else 0

/-- Weight a ballot contributes to `votesAgainst`. -/
def Vote.againstWeight (vt : Vote) : ℕ :=
  if vt.voted && !vt.support then vt.weight else 0

/-- Tally-ballot coherence: on every slot, each stored tally is the sum of
the matching recorded ballot weights. -/
def Coherent {n : ℕ} (s : GovState n) : Prop :=
  ∀ pid, (s.proposals pid).votesFor = (∑ a, Vote.forWeight (s.votes pid a)) ∧
    (s.proposals pid).votesAgainst = ∑ a, Vote.againstWeight (s.votes pid a)

/-- Slots above the counter are untouched: default proposal record and no
recorded ballots. -/
def Fresh {n : ℕ} (s : GovState n) : Prop :=
  ∀ pid, s.proposalCount < pid →
    (s.proposals pid).id = 0 ∧ ∀ a, s.votes pid a = Vote.zero

/-- Summing a ballot-derived quantity after one ballot is replaced. -/
lemma sum_comp_update {n : ℕ} (f : Vote → ℕ) (vts : Addr n → Vote)
    (sender : Addr n) (b : Vote) :
    (∑ a, f (Function.update vts sender b a))
      = f b + ∑ a ∈ Finset.univ.erase sender, f (vts a) := by
  have h1 : ∀ a, f (Function.update vts sender b a)
      = Function.update (fun j => f (vts j)) sender (f b) a := by
    intro a
    exact Function.apply_update (fun _ w => f w) vts sender b a
  rw [Finset.sum_congr rfl fun a _ => h1 a]
  exact sum_update (fun j => f (vts j)) sender (f b)

/-- Splitting a ballot-derived sum at one voter. -/
lemma sum_comp_split {n : ℕ} (f : Vote → ℕ) (vts : Addr n → Vote)
    (i : Addr n) :
    (∑ a, f (vts a)) = f (vts i) + ∑ a ∈ Finset.univ.erase i, f (vts a) :=
  sum_eq_add_erase (fun a => f (vts a)) i

/-- One Governance call preserves coherence and freshness. -/
lemma govApply_inv {n : ℕ} (s : GovState n) (op : GovOp n)
    (hco : Coherent s) (hfr : Fresh s) :
    Coherent (govApply s op) ∧ Fresh (govApply s op) := by
  cases op with
  | createProposal now v sender t dsc ta du qp =>
      cases hc : createProposal s now v sender t dsc ta du qp with
      | error e =>
          simp only [govApply, hc]
          exact ⟨hco, hfr⟩
      | ok p =>
          obtain ⟨s1, pid1⟩ := p
          obtain ⟨-, -, -, -, -, -, hcount, hprop, hvot⟩ :=
            createProposal_ok_elim hc
          simp only [govApply, hc]
          constructor
          · intro pid
            rw [hprop, hvot]
            by_cases hp : pid = s.proposalCount + 1
            · rw [hp, Function.update_same]
              have hz := (hfr (s.proposalCount + 1) (by omega)).2
              have hzf : ∀ a : Addr n,
                  Vote.forWeight (s.votes (s.proposalCount + 1) a) = 0 := by
                intro a
                rw [hz a]
                simp [Vote.forWeight, Vote.zero]
              have hza : ∀ a : Addr n,
                  Vote.againstWeight (s.votes (s.proposalCount + 1) a) = 0 := by
                intro a
                rw [hz a]
                simp [Vote.againstWeight, Vote.zero]
              constructor
              · simp [hzf]
              · simp [hza]
            · rw [Function.update_noteq hp]
              exact hco pid
          · intro pid hgt
            rw [hcount] at hgt
            have hp : pid ≠ s.proposalCount + 1 := by omega
            refine ⟨?_, ?_⟩
            · rw [hprop, Function.update_noteq hp]
              exact (hfr pid (by omega)).1
            · intro a
              rw [hvot]
              exact (hfr pid (by omega)).2 a
  | castVote now2 v2 sender2 pid2 sup2 =>
      cases hc : castVote s now2 v2 sender2 pid2 sup2 with
      | error e =>
          simp only [govApply, hc]
          exact ⟨hco, hfr⟩
      | ok s1 =>
          obtain ⟨hid2, -, -, hnv, -, hcount, hprop, hvot⟩ :=
            castVote_ok_elim hc
          have hple : pid2 ≤ s.proposalCount := by
            by_contra hgt
            push_neg at hgt
            have h0 := (hfr pid2 hgt).1
            omega
          simp only [govApply, hc]
          constructor
          · intro pid
            rw [hprop, hvot]
            by_cases hp : pid = pid2
            · rw [hp, Function.update_same, Function.update_same]
              have hfor0 := sum_comp_split Vote.forWeight (s.votes pid2)
                sender2
              have hagn0 := sum_comp_split Vote.againstWeight (s.votes pid2)
                sender2
              have e3 : Vote.forWeight (s.votes pid2 sender2) = 0 := by
                simp [Vote.forWeight, hnv]
              have e4 : Vote.againstWeight (s.votes pid2 sender2) = 0 := by
                simp [Vote.againstWeight, hnv]
              have hc1 := (hco pid2).1
              have hc2 := (hco pid2).2
              cases sup2 with
              | true =>
                  have hfor := sum_comp_update Vote.forWeight (s.votes pid2)
                    sender2 ⟨true, true,
                      v2.balanceOf (s.proposals pid2).tokenAddress sender2⟩
                  have hagn := sum_comp_update Vote.againstWeight
                    (s.votes pid2) sender2 ⟨true, true,
                      v2.balanceOf (s.proposals pid2).tokenAddress sender2⟩
                  have w1 : Vote.forWeight ⟨true, true,
                      v2.balanceOf (s.proposals pid2).tokenAddress sender2⟩
                      = v2.balanceOf (s.proposals pid2).tokenAddress sender2 := by
                    simp [Vote.forWeight]
                  have w2 : Vote.againstWeight ⟨true, true,
                      v2.balanceOf (s.proposals pid2).tokenAddress sender2⟩
                      = 0 := by
                    simp [Vote.againstWeight]
                  rw [w1] at hfor
                  rw [w2] at hagn
                  rw [if_pos rfl]
                  constructor
                  · simp only []
                    omega
                  · simp only []
                    omega
              | false =>
                  have hfor := sum_comp_update Vote.forWeight (s.votes pid2)
                    sender2 ⟨true, false,
                      v2.balanceOf (s.proposals pid2).tokenAddress sender2⟩
                  have hagn := sum_comp_update Vote.againstWeight
                    (s.votes pid2) sender2 ⟨true, false,
                      v2.balanceOf (s.proposals pid2).tokenAddress sender2⟩
                  have w1 : Vote.forWeight ⟨true, false,
                      v2.balanceOf (s.proposals pid2).tokenAddress sender2⟩
                      = 0 := by
                    simp [Vote.forWeight]
                  have w2 : Vote.againstWeight ⟨true, false,
                      v2.balanceOf (s.proposals pid2).tokenAddress sender2⟩
                      = v2.balanceOf (s.proposals pid2).tokenAddress sender2 := by
                    simp [Vote.againstWeight]
                  rw [w1] at hfor
                  rw [w2] at hagn
                  rw [if_neg (by simp)]
                  constructor
                  · simp only []
                    omega
                  · simp only []
                    omega
            · rw [Function.update_noteq hp, Function.update_noteq hp]
              exact hco pid
          · intro pid hgt
            rw [hcount] at hgt
            have hp : pid ≠ pid2 := by omega
            refine ⟨?_, ?_⟩
            · rw [hprop, Function.update_noteq hp]
              exact (hfr pid hgt).1
            · intro a
              rw [hvot, Function.update_noteq hp]
              exact (hfr pid hgt).2 a
  | executeProposal now2 pid2 =>
      cases hc : executeProposal s now2 pid2 with
      | error e =>
          simp only [govApply, hc]
          exact ⟨hco, hfr⟩
      | ok p =>
          obtain ⟨s1, passed⟩ := p
          obtain ⟨hid2, -, -, -, -, hcount, hprop, hvot⟩ :=
            executeProposal_ok_elim hc
          have hple : pid2 ≤ s.proposalCount := by
            by_contra hgt
            push_neg at hgt
            have h0 := (hfr pid2 hgt).1
            omega
          simp only [govApply, hc]
          constructor
          · intro pid
            rw [hprop, hvot]
            by_cases hp : pid = pid2
            · rw [hp, Function.update_same]
              have hc1 := (hco pid2).1
              have hc2 := (hco pid2).2
              constructor
              · simp only []
                omega
              · simp only []
                omega
            · rw [Function.update_noteq hp]
              exact hco pid
          · intro pid hgt
            rw [hcount] at hgt
            have hp : pid ≠ pid2 := by omega
            refine ⟨?_, ?_⟩
            · rw [hprop, Function.update_noteq hp]
              exact (hfr pid hgt).1
            · intro a
              rw [hvot]
              exact (hfr pid hgt).2 a

/-- A whole call sequence preserves coherence and freshness. -/
lemma govRun_inv {n : ℕ} (ops : List (GovOp n)) (s : GovState n)
    (hco : Coherent s) (hfr : Fresh s) :
    Coherent (govRun s ops) ∧ Fresh (govRun s ops) := by
  induction ops generalizing s with
  | nil => exact ⟨hco, hfr⟩
  | cons op ops ih =>
      have h1 := govApply_inv s op hco hfr
      exact ih (govApply s op) h1.1 h1.2

/-- The fresh Governance state is coherent. -/
lemma govInit_coherent (n : ℕ) : Coherent (govInit n) := by
  intro pid
  constructor <;> simp [govInit, Proposal.zero, Vote.zero, Vote.forWeight,
    Vote.againstWeight]

/-- The fresh Governance state has only untouched slots. -/
lemma govInit_fresh (n : ℕ) : Fresh (govInit n) := by
  intro pid hgt
  exact ⟨rfl, fun a => rfl⟩

/-! ## Claim theorems -/

/-- C10: in every reachable Governance state and for every proposal slot,
`votesFor` equals the sum of the weights of the recorded ballots with
`support = true` and `votesAgainst` equals the sum of the weights of the
recorded ballots with `support = false`; every Governance operation
preserves this invariant (proved by induction over the call sequence). -/
theorem governance_tally_coherence {n : ℕ} (ops : List (GovOp n)) (pid : ℕ) :
    ((govRun (govInit n) ops).proposals pid).votesFor
      = (∑ a, Vote.forWeight ((govRun (govInit n) ops).votes pid a)) ∧
    ((govRun (govInit n) ops).proposals pid).votesAgainst
      = ∑ a, Vote.againstWeight ((govRun (govInit n) ops).votes pid a) :=
  (govRun_inv ops (govInit n) (govInit_coherent n) (govInit_fresh n)).1 pid

/-- C1: for every proposal passing the existence check, with the voting
window over and not yet executed, `executeProposal` fails
`QuorumNotReached` when `votesFor + votesAgainst < quorum` (the revert
leaves all state unchanged), and otherwise succeeds, reporting
`passed = votesFor > votesAgainst` (so a tie is a loss), marking the
proposal executed with `votesFor` and `votesAgainst` unchanged; afterwards
every further `executeProposal` call at a non-earlier timestamp fails
`AlreadyExecuted`. -/
theorem executeProposal_spec {n : ℕ} (s : GovState n) (now pid : ℕ)
    (hex : (s.proposals pid).id = pid)
    (ht : (s.proposals pid).endTime < now)
    (hne : (s.proposals pid).executed = false) :
    ((s.proposals pid).votesFor + (s.proposals pid).votesAgainst
        < (s.proposals pid).quorum →
      executeProposal s now pid = .error .QuorumNotReached) ∧
    ((s.proposals pid).quorum ≤
        (s.proposals pid).votesFor + (s.proposals pid).votesAgainst →
      ∃ s2, executeProposal s now pid = .ok (s2,
          decide ((s.proposals pid).votesAgainst
            < (s.proposals pid).votesFor)) ∧
        (s2.proposals pid).executed = true ∧
        (s2.proposals pid).votesFor = (s.proposals pid).votesFor ∧
        (s2.proposals pid).votesAgainst = (s.proposals pid).votesAgainst ∧
        ∀ now2, now ≤ now2 →
          executeProposal s2 now2 pid = .error .AlreadyExecuted) := by
  have hnex : ¬((s.proposals pid).id ≠ pid) := not_not_intro hex
  have hnt : ¬¬((s.proposals pid).endTime < now) := not_not_intro ht
  have hnexe : ¬((s.proposals pid).executed = true) := by simp [hne]
  constructor
  · intro hq
    unfold executeProposal
    rw [if_neg hnex, if_neg hnt, if_neg hnexe, if_pos hq]
  · intro hq
    have hnq : ¬((s.proposals pid).votesFor + (s.proposals pid).votesAgainst
        < (s.proposals pid).quorum) := by omega
    have hrun : executeProposal s now pid = .ok
        ({ s with
            proposals := Function.update s.proposals pid
              { s.proposals pid with executed := true } },
         decide ((s.proposals pid).votesAgainst
            < (s.proposals pid).votesFor)) := by
      unfold executeProposal
      rw [if_neg hnex, if_neg hnt, if_neg hnexe, if_neg hnq]
    refine ⟨_, hrun, ?_, ?_, ?_, ?_⟩
    · simp [Function.update_same]
    · simp [Function.update_same]
    · simp [Function.update_same]
    · intro now2 hn2
      have hS2p : ({ s with
          proposals := Function.update s.proposals pid
            { s.proposals pid with executed := true } } : GovState n).proposals
            pid
          = { s.proposals pid with executed := true } :=
        Function.update_same _ _ _
      have hend2 : (s.proposals pid).endTime < now2 := by omega
      unfold executeProposal
      rw [hS2p]
      simp only []
      rw [if_neg (not_not_intro hex), if_neg (not_not_intro hend2)]
      simp

/-- A chain view on two addresses where address 1 holds 100 tokens of every
token contract. -/
def richView : ChainView 1 :=
  { balanceOf := fun _ a => if a = 1 then 100 else 0,
    totalSupply := fun _ => 100 }

/-- A Governance state holding one proposal (id 1) whose window closed at
time 10, with tallies 7 for / 3 against and quorum 5. -/
def c1State : GovState 1 :=
  { proposalCount := 1,
    proposals := Function.update (fun _ => Proposal.zero 1) 1
      { id := 1, title := "t", description := "d", tokenAddress := 1,
        creator := 1, startTime := 0, endTime := 10, quorum := 5,
        votesFor := 7, votesAgainst := 3, executed := false },
    votes := fun _ _ => Vote.zero }

/-- Witness for C1 at the concrete state `c1State`, timestamp 11. -/
theorem executeProposal_spec_witness :
    (c1State.proposals 1).id = 1 ∧
    (c1State.proposals 1).endTime < 11 ∧
    (c1State.proposals 1).executed = false ∧
    ((c1State.proposals 1).quorum ≤
        (c1State.proposals 1).votesFor + (c1State.proposals 1).votesAgainst →
      ∃ s2, executeProposal c1State 11 1 = .ok (s2,
          decide ((c1State.proposals 1).votesAgainst
            < (c1State.proposals 1).votesFor)) ∧
        (s2.proposals 1).executed = true ∧
        (s2.proposals 1).votesFor = (c1State.proposals 1).votesFor ∧
        (s2.proposals 1).votesAgainst = (c1State.proposals 1).votesAgainst ∧
        ∀ now2, 11 ≤ now2 →
          executeProposal s2 now2 1 = .error .AlreadyExecuted) :=
  ⟨by decide, by decide, by decide,
    (executeProposal_spec c1State 11 1 (by decide) (by decide)
      (by decide)).2⟩

/-- C4: for every proposal passing the existence check, `castVote` fails
`VotingClosed` when `now > endTime`, `AlreadyExecuted` when the proposal is
executed (inside the window), `NoVotingPower` when the live balance of the
caller on the proposal token is zero, and otherwise records the ballot with
the balance read at vote time (from the arbitrary current chain view, not a
creation-time snapshot) as weight, adding exactly that weight to `votesFor`
when `support` is true and to `votesAgainst` otherwise. -/
theorem castVote_spec {n : ℕ} (s : GovState n) (now : ℕ) (v : ChainView n)
    (voter : Addr n) (pid : ℕ) (support : Bool)
    (hex : (s.proposals pid).id = pid) :
    ((s.proposals pid).endTime < now →
      castVote s now v voter pid support = .error .VotingClosed) ∧
    (now ≤ (s.proposals pid).endTime →
      (s.proposals pid).executed = true →
      castVote s now v voter pid support = .error .AlreadyExecuted) ∧
    (now ≤ (s.proposals pid).endTime →
      (s.proposals pid).executed = false →
      (s.votes pid voter).voted = false →
      v.balanceOf (s.proposals pid).tokenAddress voter = 0 →
      castVote s now v voter pid support = .error .NoVotingPower) ∧
    (now ≤ (s.proposals pid).endTime →
      (s.proposals pid).executed = false →
      (s.votes pid voter).voted = false →
      v.balanceOf (s.proposals pid).tokenAddress voter ≠ 0 →
      ∃ s2, castVote s now v voter pid support = .ok s2 ∧
        s2.votes pid voter
          = { voted := true, support := support,
              weight := v.balanceOf (s.proposals pid).tokenAddress voter } ∧
        (support = true →
          (s2.proposals pid).votesFor = (s.proposals pid).votesFor +
            v.balanceOf (s.proposals pid).tokenAddress voter ∧
          (s2.proposals pid).votesAgainst
            = (s.proposals pid).votesAgainst) ∧
        (support = false →
          (s2.proposals pid).votesAgainst
              = (s.proposals pid).votesAgainst +
                v.balanceOf (s.proposals pid).tokenAddress voter ∧
          (s2.proposals pid).votesFor = (s.proposals pid).votesFor)) := by
  have hnex : ¬((s.proposals pid).id ≠ pid) := not_not_intro hex
  refine ⟨?_, ?_, ?_, ?_⟩
  · intro hvc
    unfold castVote
    rw [if_neg hnex, if_pos hvc]
  · intro hle hexe
    unfold castVote
    rw [if_neg hnex, if_neg (by omega), if_pos hexe]
  · intro hle hexe hnv hbal
    unfold castVote
    rw [if_neg hnex, if_neg (by omega), if_neg (by simp [hexe]),
      if_neg (by simp [hnv]), if_pos hbal]
  · intro hle hexe hnv hbal
    have hrun : castVote s now v voter pid support = .ok
        { s with
          votes := Function.update s.votes pid
            (Function.update (s.votes pid) voter
              { voted := true, support := support,
                weight := v.balanceOf (s.proposals pid).tokenAddress voter }),
          proposals := Function.update s.proposals pid
            (if support then
              { s.proposals pid with
                  votesFor := (s.proposals pid).votesFor +
                    v.balanceOf (s.proposals pid).tokenAddress voter }
             else
              { s.proposals pid with
                  votesAgainst := (s.proposals pid).votesAgainst +
                    v.balanceOf (s.proposals pid).tokenAddress voter }) } := by
      unfold castVote
      rw [if_neg hnex, if_neg (by omega), if_neg (by simp [hexe]),
        if_neg (by simp [hnv]), if_neg hbal]
    refine ⟨_, hrun, ?_, ?_, ?_⟩
    · simp [Function.update_same]
    · intro hsup
      subst hsup
      constructor
      · simp [Function.update_same]
      · simp [Function.update_same]
    · intro hsup
      subst hsup
      constructor
      · simp [Function.update_same]
      · simp [Function.update_same]

/-- Witness for C4 at the concrete state `c1State`, timestamp 5, with the
live view `richView`. -/
theorem castVote_spec_witness :
    (c1State.proposals 1).id = 1 ∧
    (5 ≤ (c1State.proposals 1).endTime →
      (c1State.proposals 1).executed = false →
      (c1State.votes 1 1).voted = false →
      richView.balanceOf (c1State.proposals 1).tokenAddress 1 ≠ 0 →
      ∃ s2, castVote c1State 5 richView 1 1 true = .ok s2 ∧
        s2.votes 1 1
          = { voted := true, support := true,
              weight := richView.balanceOf
                (c1State.proposals 1).tokenAddress 1 } ∧
        (true = true →
          (s2.proposals 1).votesFor = (c1State.proposals 1).votesFor +
            richView.balanceOf (c1State.proposals 1).tokenAddress 1 ∧
          (s2.proposals 1).votesAgainst
            = (c1State.proposals 1).votesAgainst) ∧
        (true = false →
          (s2.proposals 1).votesAgainst
              = (c1State.proposals 1).votesAgainst +
                richView.balanceOf (c1State.proposals 1).tokenAddress 1 ∧
          (s2.proposals 1).votesFor = (c1State.proposals 1).votesFor)) :=
  ⟨by decide,
    (castVote_spec c1State 5 richView 1 1 true (by decide)).2.2.2⟩

/-- A chain view reading every balance and supply as zero. -/
def zeroView : ChainView 1 :=
  { balanceOf := fun _ _ => 0, totalSupply := fun _ => 0 }

/-- The state produced by calling `executeProposal` on the phantom slot 0
of a freshly deployed Governance contract at timestamp 1. -/
def phantomExec : GovState 1 :=
  match executeProposal (govInit 1) 1 0 with
  | .ok p => p.1
  | .error _ => govInit 1

/-- C7 (code bug demonstration): on a fresh Governance contract, the
existence check `proposals[id].id == id` passes trivially for the
never-assigned id 0, so `executeProposal(0)` at timestamp 1 succeeds
(phantom proposal marked executed with `passed = false`) and
`getProposal(0)` returns the default record instead of failing
`ProposalNotFound`, while `castVote(0)` fails `VotingClosed` instead of
`ProposalNotFound`; the `getVote` / `hasVoted` defaults do behave as
claimed. -/
theorem phantom_proposal_zero :
    executeProposal (govInit 1) 1 0 = .ok (phantomExec, false) ∧
    (phantomExec.proposals 0).executed = true ∧
    getProposal (govInit 1) 0 = .ok (Proposal.zero 1) ∧
    castVote (govInit 1) 1 zeroView 1 0 true = .error .VotingClosed ∧
    getVote (govInit 1) 0 1 = Vote.zero ∧
    hasVoted (govInit 1) 0 1 = false :=
  ⟨rfl, rfl, rfl, rfl, rfl, rfl⟩

/-- Governance state after creating a proposal on token 1 (duration 10,
quorum percent 50) at time 0 with creator 1 holding 100 tokens. -/
def c2s1 : GovState 1 :=
  govApply (govInit 1) (.createProposal 0 richView 1 "t" "d" 1 10 50)

/-- State after voter 1 then casts a supporting vote at time 5. -/
def c2s2 : GovState 1 :=
  govApply c2s1 (.castVote 5 richView 1 1 true)

/-- Counterexample to C2 as stated: after a successful vote at time 5 on a
proposal whose window closes at time 10, the subsequent attempt at time 11
by the same voter fails `VotingClosed`, not `AlreadyVoted`. -/
theorem castVote_repeat_not_alreadyVoted :
    castVote c2s1 5 richView 1 1 true = .ok c2s2 ∧
    castVote c2s2 11 richView 1 1 true = .error .VotingClosed ∧
    castVote c2s2 11 richView 1 1 true ≠ .error .AlreadyVoted := by
  have ha : castVote c2s2 11 richView 1 1 true = .error .VotingClosed := rfl
  refine ⟨rfl, ha, fun heq => ?_⟩
  rw [ha] at heq
  exact absurd (Except.error.inj heq) (by decide)

/-- C2 (amended): after a successful `castVote`, the recorded ballot is
never mutated by any later call sequence; every subsequent `castVote`
attempt by the same voter on the same proposal fails — with `AlreadyVoted`
whenever the window is still open and the proposal unexecuted, and with the
earlier-checked error (such as `VotingClosed`) otherwise — and, being a
revert, leaves `votesFor` and `votesAgainst` (indeed the whole state)
unchanged. -/
theorem castVote_at_most_once {n : ℕ} (s : GovState n) (now : ℕ)
    (v : ChainView n) (voter : Addr n) (pid : ℕ) (support : Bool)
    (s1 : GovState n) (hok : castVote s now v voter pid support = .ok s1)
    (ops : List (GovOp n)) :
    ((govRun s1 ops).votes pid voter
      = { voted := true, support := support,
          weight := v.balanceOf (s.proposals pid).tokenAddress voter }) ∧
    ∀ now2 (v2 : ChainView n) (sup2 : Bool),
      (∀ s3, castVote (govRun s1 ops) now2 v2 voter pid sup2 ≠ .ok s3) ∧
      govApply (govRun s1 ops) (.castVote now2 v2 voter pid sup2)
        = govRun s1 ops ∧
      (now2 ≤ ((govRun s1 ops).proposals pid).endTime →
        ((govRun s1 ops).proposals pid).executed = false →
        castVote (govRun s1 ops) now2 v2 voter pid sup2
          = .error .AlreadyVoted) := by
  obtain ⟨hid, -, -, -, -, -, hprop, hvot⟩ := castVote_ok_elim hok
  have hrec : s1.votes pid voter
      = { voted := true, support := support,
          weight := v.balanceOf (s.proposals pid).tokenAddress voter } := by
    rw [hvot, Function.update_same, Function.update_same]
  have hv1 : (s1.votes pid voter).voted = true := by rw [hrec]
  have hstable := govRun_ballot_stable ops s1 pid voter hv1
  have hmain : (govRun s1 ops).votes pid voter
      = { voted := true, support := support,
          weight := v.balanceOf (s.proposals pid).tokenAddress voter } :=
    hstable.trans hrec
  have hvoted : ((govRun s1 ops).votes pid voter).voted = true := by
    rw [hmain]
  have hid1 : (s1.proposals pid).id = pid := by
    rw [hprop]
    cases support with
    | true =>
        rw [Function.update_same]
        simpa using hid
    | false =>
        rw [Function.update_same]
        simpa using hid
  have hidS : ((govRun s1 ops).proposals pid).id = pid :=
    govRun_id_stable ops s1 pid hid1
  refine ⟨hmain, ?_⟩
  intro now2 v2 sup2
  have hnone : ∀ s3, castVote (govRun s1 ops) now2 v2 voter pid sup2
      ≠ .ok s3 := by
    intro s3 hok3
    obtain ⟨-, -, -, hnv3, -⟩ := castVote_ok_elim hok3
    rw [hvoted] at hnv3
    cases hnv3
  refine ⟨hnone, ?_, ?_⟩
  · cases hres : castVote (govRun s1 ops) now2 v2 voter pid sup2 with
    | ok s3 => exact absurd hres (hnone s3)
    | error e => simp [govApply, hres]
  · intro hle2 hexe2
    unfold castVote
    rw [if_neg (not_not_intro hidS), if_neg (by omega),
      if_neg (by simp [hexe2]), if_pos hvoted]

/-- Witness for C2 (amended) on the concrete two-call trace, followed by a
successful execution of the proposal at time 20. -/
theorem castVote_at_most_once_witness :
    castVote c2s1 5 richView 1 1 true = .ok c2s2 ∧
    (((govRun c2s2 [GovOp.executeProposal 20 1]).votes 1 1
        = { voted := true, support := true,
            weight := richView.balanceOf
              (c2s1.proposals 1).tokenAddress 1 }) ∧
      ∀ now2 (v2 : ChainView 1) (sup2 : Bool),
        (∀ s3, castVote (govRun c2s2 [GovOp.executeProposal 20 1]) now2 v2
            1 1 sup2 ≠ .ok s3) ∧
        govApply (govRun c2s2 [GovOp.executeProposal 20 1])
            (.castVote now2 v2 1 1 sup2)
          = govRun c2s2 [GovOp.executeProposal 20 1] ∧
        (now2 ≤ ((govRun c2s2 [GovOp.executeProposal 20 1]).proposals
            1).endTime →
          ((govRun c2s2 [GovOp.executeProposal 20 1]).proposals 1).executed
            = false →
          castVote (govRun c2s2 [GovOp.executeProposal 20 1]) now2 v2 1 1
            sup2 = .error .AlreadyVoted)) :=
  ⟨rfl, castVote_at_most_once c2s1 5 richView 1 1 true c2s2 rfl
    [GovOp.executeProposal 20 1]⟩

/-- C3: a successful `createProposal` computes the quorum exactly once, as
the floor of `quorumPercent * totalSupply / 100` over the supply read from
the chain view current at creation, and `getProposal` keeps returning that
same quorum after any later call sequence — whose calls may carry arbitrary
chain views, covering any later mint or burn on the referenced token. -/
theorem quorum_frozen {n : ℕ} (s : GovState n) (now : ℕ) (v : ChainView n)
    (sender : Addr n) (title description : String) (tokenAddress : Addr n)
    (duration quorumPercent : ℕ) (s1 : GovState n) (pid : ℕ)
    (hok : createProposal s now v sender title description tokenAddress
        duration quorumPercent = .ok (s1, pid)) :
    (s1.proposals pid).quorum
        = quorumPercent * v.totalSupply tokenAddress / 100 ∧
    ∀ ops : List (GovOp n),
      getProposal (govRun s1 ops) pid
          = .ok ((govRun s1 ops).proposals pid) ∧
      ((govRun s1 ops).proposals pid).quorum
          = quorumPercent * v.totalSupply tokenAddress / 100 := by
  obtain ⟨-, -, -, -, -, hpid, hcount, hprop, -⟩ := createProposal_ok_elim hok
  have hq1 : (s1.proposals pid).quorum
      = quorumPercent * v.totalSupply tokenAddress / 100 := by
    rw [hprop, hpid, Function.update_same]
    simp [Nat.mul_comm]
  have hid1 : (s1.proposals pid).id = pid := by
    rw [hprop, hpid, Function.update_same]
  refine ⟨hq1, ?_⟩
  intro ops
  have hle : pid ≤ s1.proposalCount := by omega
  have hmeta := govRun_meta_stable ops s1 pid hle
  constructor
  · unfold getProposal
    rw [if_pos (govRun_id_stable ops s1 pid hid1)]
  · exact hmeta.2.trans hq1

/-- Witness for C3 on the concrete creation trace. -/
theorem quorum_frozen_witness :
    createProposal (govInit 1) 0 richView 1 "t" "d" 1 10 50
      = .ok (c2s1, 1) ∧
    ((c2s1.proposals 1).quorum = 50 * richView.totalSupply 1 / 100 ∧
      ∀ ops : List (GovOp 1),
        getProposal (govRun c2s1 ops) 1
            = .ok ((govRun c2s1 ops).proposals 1) ∧
        ((govRun c2s1 ops).proposals 1).quorum
            = 50 * richView.totalSupply 1 / 100) :=
  ⟨rfl, quorum_frozen (govInit 1) 0 richView 1 "t" "d" 1 10 50 c2s1 1 rfl⟩

/-- A distributor-gated token where address 1 owns 3 units, is owner and
distributor, and transfers are disabled. -/
def c5CustTok : CustomToken.State 1 :=
  { name := "C", symbol := "C",
    balances := fun a => if a = 1 then 3 else 0, totalSupply := 3,
    decimals := 0, transferable := false,
    distributors := fun a => decide (a = 1), owner := 1 }

/-- A factory-deployed token where address 1 owns 10 units and transfers
are disabled. -/
def c5FactTok : FactoryToken.State 1 :=
  { name := "F", symbol := "F",
    balances := fun a => if a = 1 then 10 else 0, totalSupply := 10,
    decimals := 0, transferable := false, owner := 1 }

/-- Counterexample to C5 as stated: burning is not always permitted.  In
the factory-deployed variant a burn (zero destination) from a non-zero
source is rejected `TransfersDisabled` while `transferable` is false, and
even in the distributor-gated variant a burn exceeding the source balance
fails `InsufficientBalance`. -/
theorem transfer_gate_burn_counterexample :
    FactoryToken.update c5FactTok 1 0 2 = .error .TransfersDisabled ∧
    CustomToken.update c5CustTok 1 0 5 = .error .InsufficientBalance :=
  ⟨rfl, rfl⟩

/-- C5 (amended): with `transferable = false`, in the distributor-gated
CustomToken a move between two non-zero addresses fails
`TransfersDisabled` exactly when the source is not a registered
distributor and succeeds balance permitting when it is; minting always
succeeds regardless of the flag and burning succeeds balance permitting.
In the factory-deployed CustomToken every move from a non-zero source —
burns included — fails `TransfersDisabled`, and only minting always
succeeds. -/
theorem transfer_gate_spec {n : ℕ} (sA : CustomToken.State n)
    (sB : FactoryToken.State n) (fromAddr toAddr : Addr n) (value : ℕ)
    (hA : sA.transferable = false) (hB : sB.transferable = false) :
    (fromAddr ≠ 0 → toAddr ≠ 0 → sA.distributors fromAddr = false →
      CustomToken.update sA fromAddr toAddr value
        = .error .TransfersDisabled) ∧
    (fromAddr ≠ 0 → toAddr ≠ 0 → sA.distributors fromAddr = true →
      value ≤ sA.balances fromAddr →
      ∃ s2, CustomToken.update sA fromAddr toAddr value = .ok s2) ∧
    (∀ (s : CustomToken.State n) (t : Addr n) (w : ℕ),
      ∃ s2, CustomToken.update s 0 t w = .ok s2) ∧
    (toAddr = 0 → fromAddr ≠ 0 → value ≤ sA.balances fromAddr →
      ∃ s2, CustomToken.update sA fromAddr toAddr value = .ok s2) ∧
    (fromAddr ≠ 0 →
      FactoryToken.update sB fromAddr toAddr value
        = .error .TransfersDisabled) ∧
    (∀ (s : FactoryToken.State n) (t : Addr n) (w : ℕ),
      ∃ s2, FactoryToken.update s 0 t w = .ok s2) := by
  refine ⟨?_, ?_, ?_, ?_, ?_, ?_⟩
  · intro hf ht hd
    unfold CustomToken.update
    rw [if_pos ⟨hA, hf, ht, hd⟩]
  · intro hf ht hd hval
    unfold CustomToken.update
    rw [if_neg (by simp [hd])]
    unfold ozUpdate
    rw [if_neg hf, if_neg (by omega), if_neg ht]
    exact ⟨_, rfl⟩
  · intro s t w
    unfold CustomToken.update
    rw [if_neg (by simp)]
    unfold ozUpdate
    rw [if_pos rfl]
    by_cases ht0 : t = 0
    · rw [if_pos ht0]
      exact ⟨_, rfl⟩
    · rw [if_neg ht0]
      exact ⟨_, rfl⟩
  · intro ht0 hf hval
    unfold CustomToken.update
    rw [if_neg (by simp [ht0])]
    unfold ozUpdate
    rw [if_neg hf, if_neg (by omega), if_pos ht0]
    exact ⟨_, rfl⟩
  · intro hf
    unfold FactoryToken.update
    rw [if_pos ⟨hf, hB⟩]
  · intro s t w
    unfold FactoryToken.update
    rw [if_neg (by simp)]
    unfold ozUpdate
    rw [if_pos rfl]
    by_cases ht0 : t = 0
    · rw [if_pos ht0]
      exact ⟨_, rfl⟩
    · rw [if_neg ht0]
      exact ⟨_, rfl⟩

/-- Witness for C5 (amended) on the two concrete disabled-transfer tokens. -/
theorem transfer_gate_spec_witness :
    c5CustTok.transferable = false ∧ c5FactTok.transferable = false ∧
    ((1 ≠ (0 : Addr 1) → 1 ≠ (0 : Addr 1) →
        c5CustTok.distributors 1 = false →
        CustomToken.update c5CustTok 1 1 2 = .error .TransfersDisabled) ∧
      (1 ≠ (0 : Addr 1) → 1 ≠ (0 : Addr 1) →
        c5CustTok.distributors 1 = true → 2 ≤ c5CustTok.balances 1 →
        ∃ s2, CustomToken.update c5CustTok 1 1 2 = .ok s2) ∧
      (∀ (s : CustomToken.State 1) (t : Addr 1) (w : ℕ),
        ∃ s2, CustomToken.update s 0 t w = .ok s2) ∧
      ((1 : Addr 1) = 0 → 1 ≠ (0 : Addr 1) → 2 ≤ c5CustTok.balances 1 →
        ∃ s2, CustomToken.update c5CustTok 1 1 2 = .ok s2) ∧
      (1 ≠ (0 : Addr 1) →
        FactoryToken.update c5FactTok 1 1 2 = .error .TransfersDisabled) ∧
      (∀ (s : FactoryToken.State 1) (t : Addr 1) (w : ℕ),
        ∃ s2, FactoryToken.update s 0 t w = .ok s2)) :=
  ⟨rfl, rfl, transfer_gate_spec c5CustTok c5FactTok 1 1 2 rfl rfl⟩

/-- The factory state after one `createToken` call with initial supply 5
and 2 decimals on a fresh factory, by caller 1. -/
def c6Factory1 : TokenFactory.State 1 :=
  match TokenFactory.createToken (TokenFactory.init 1) 1 "Tok" "TOK" 5 2
      true with
  | .ok p => p.1
  | .error _ => TokenFactory.init 1

/-- Counterexample to C6 as stated: a token deployed through
`TokenFactory.createToken` with initial supply 5 and 2 decimals credits its
owner with exactly 5 units, not `5 * 10 ^ 2 = 500`, because the factory
deploys the `contracts/CustomToken.sol` variant whose constructor does not
scale by `10 ^ decimals` (and keeps no distributor registry at all). -/
theorem createToken_unscaled_counterexample :
    TokenFactory.createToken (TokenFactory.init 1) 1 "Tok" "TOK" 5 2 true
      = .ok (c6Factory1, 0) ∧
    (c6Factory1.tokens.map fun t => t.balances 1) = [5] ∧
    (c6Factory1.tokens.map fun t => t.totalSupply) = [5] ∧
    (c6Factory1.tokens.map fun t => t.owner) = [1] ∧
    (5 : ℕ) ≠ 5 * 10 ^ 2 :=
  ⟨rfl, rfl, rfl, rfl, by decide⟩

/-- C6 (amended): constructing the distributor-gated CustomToken directly
mints exactly `totalSupply * 10 ^ decimals` to the owner (who is also the
sole initial distributor), while `TokenFactory.createToken` deploys the
other CustomToken variant, owned by the caller, which mints exactly
`initialSupply` — unscaled — and has no distributor registry. -/
theorem token_creation_spec {n : ℕ} (nm sy : String) (ts d : ℕ)
    (o : Addr n) (tr : Bool) (ho : o ≠ 0) (fs : TokenFactory.State n)
    (caller : Addr n) (hc : caller ≠ 0) (nm2 sy2 : String)
    (supply d2 : ℕ) (tr2 : Bool) :
    (∃ s, CustomToken.create nm sy ts d o tr = .ok s ∧
      s.balances o = ts * 10 ^ d ∧ s.totalSupply = ts * 10 ^ d ∧
      s.owner = o ∧ ∀ a, s.distributors a = true ↔ a = o) ∧
    (∃ fs2 t, TokenFactory.createToken fs caller nm2 sy2 supply d2 tr2
        = .ok (fs2, fs.tokens.length) ∧
      fs2.tokens = fs.tokens ++ [t] ∧ t.owner = caller ∧
      t.balances caller = supply ∧ t.totalSupply = supply) := by
  constructor
  · unfold CustomToken.create CustomToken.mintInternal CustomToken.update
      ozUpdate
    rw [if_neg ho, if_neg ho, if_neg (by simp), if_pos rfl, if_neg ho]
    refine ⟨_, rfl, ?_, ?_, ?_, ?_⟩
    · simp [Function.update_same]
    · simp
    · rfl
    · intro a
      by_cases ha : a = o
      · subst ha
        simp [Function.update_same]
      · simp [Function.update_noteq ha, ha]
  · unfold TokenFactory.createToken FactoryToken.create
      FactoryToken.mintInternal FactoryToken.update ozUpdate
    rw [if_neg hc, if_neg hc, if_neg (by simp), if_pos rfl, if_neg hc]
    refine ⟨_, _, rfl, rfl, ?_, ?_, ?_⟩
    · rfl
    · simp [Function.update_same]
    · simp

/-- Witness for C6 (amended) at concrete creation arguments. -/
theorem token_creation_spec_witness :
    (1 : Addr 1) ≠ 0 ∧
    ((∃ s : CustomToken.State 1,
        CustomToken.create "C" "C" 3 1 1 true = .ok s ∧
        s.balances 1 = 3 * 10 ^ 1 ∧ s.totalSupply = 3 * 10 ^ 1 ∧
        s.owner = 1 ∧ ∀ a, s.distributors a = true ↔ a = 1) ∧
      (∃ fs2 t, TokenFactory.createToken (TokenFactory.init 1) 1 "Tok"
          "TOK" 5 2 true = .ok (fs2, (TokenFactory.init 1).tokens.length) ∧
        fs2.tokens = (TokenFactory.init 1).tokens ++ [t] ∧ t.owner = 1 ∧
        t.balances 1 = 5 ∧ t.totalSupply = 5)) :=
  ⟨by decide, token_creation_spec "C" "C" 3 1 1 true (by decide)
    (TokenFactory.init 1) 1 (by decide) "Tok" "TOK" 5 2 true⟩

/-- A run of successful `_transfer` steps from one caller, one step per
recipient-amount pair, in input order. -/
inductive TransferChain {n : ℕ} (caller : Addr n) :
    CustomToken.State n → List (Addr n × ℕ) → CustomToken.State n →
      Prop where
  | nil (s : CustomToken.State n) : TransferChain caller s [] s
  | cons {s t u : CustomToken.State n} {r : Addr n} {a : ℕ}
      {rest : List (Addr n × ℕ)}
      (h1 : CustomToken.transferInternal s caller r a = .ok t)
      (h2 : TransferChain caller t rest u) :
      TransferChain caller s ((r, a) :: rest) u

/-- The distribute loop succeeds exactly when the corresponding transfer
chain runs through, with the same final state. -/
lemma distributeLoop_ok_iff {n : ℕ} (caller : Addr n) :
    ∀ (pairs : List (Addr n × ℕ)) (s s2 : CustomToken.State n),
      CustomToken.distributeLoop s caller pairs = .ok s2 ↔
        TransferChain caller s pairs s2
  | [], s, s2 => by
      constructor
      · intro h
        unfold CustomToken.distributeLoop at h
        simp only [Except.ok.injEq] at h
        subst h
        exact .nil s
      · intro h
        cases h
        rfl
  | (r, a) :: rest, s, s2 => by
      constructor
      · intro h
        unfold CustomToken.distributeLoop at h
        cases htr : CustomToken.transferInternal s caller r a with
        | error e =>
            rw [htr] at h
            exact absurd h (by simp)
        | ok s1 =>
            rw [htr] at h
            exact .cons htr ((distributeLoop_ok_iff caller rest s1 s2).mp h)
      · intro h
        cases h with
        | cons h1 h2 =>
            unfold CustomToken.distributeLoop
            rw [h1]
            exact (distributeLoop_ok_iff caller rest _ s2).mpr h2

/-- C8: `distributeTokens` fails `NotAuthorized` for a caller who is not a
registered distributor, and `LengthMismatch` when the arrays differ in
length, in both cases before any transfer; it returns success exactly when
the chain of per-pair `_transfer` steps from the caller — in input order —
runs through, ending in the chained state; and any failure reverts, leaving
the caller-visible state exactly unchanged (all-or-nothing). -/
theorem distributeTokens_spec {n : ℕ} (s : CustomToken.State n)
    (caller : Addr n) (recipients : List (Addr n)) (amounts : List ℕ) :
    (s.distributors caller = false →
      CustomToken.distributeTokens s caller recipients amounts
        = .error .NotAuthorized) ∧
    (s.distributors caller = true →
      recipients.length ≠ amounts.length →
      CustomToken.distributeTokens s caller recipients amounts
        = .error .LengthMismatch) ∧
    (∀ s2, CustomToken.distributeTokens s caller recipients amounts
        = .ok s2 ↔
      (s.distributors caller = true ∧
        recipients.length = amounts.length ∧
        TransferChain caller s (recipients.zip amounts) s2)) ∧
    (∀ e, CustomToken.distributeTokens s caller recipients amounts
        = .error e →
      CustomToken.applyOp s (.distribute caller recipients amounts) = s) := by
  refine ⟨?_, ?_, ?_, ?_⟩
  · intro hd
    unfold CustomToken.distributeTokens
    rw [if_pos hd]
  · intro hd hlen
    unfold CustomToken.distributeTokens
    rw [if_neg (by simp [hd]), if_pos hlen]
  · intro s2
    constructor
    · intro h
      unfold CustomToken.distributeTokens at h
      split at h
      · exact absurd h (by simp)
      · split at h
        · exact absurd h (by simp)
        · rename_i hd0 hlen0
          exact ⟨by simpa using hd0, by simpa using hlen0,
            (distributeLoop_ok_iff caller (recipients.zip amounts) s
              s2).mp h⟩
    · rintro ⟨hd, hlen, hch⟩
      unfold CustomToken.distributeTokens
      rw [if_neg (by simp [hd]), if_neg (by simp [hlen])]
      exact (distributeLoop_ok_iff caller (recipients.zip amounts) s
        s2).mpr hch
  · intro e he
    simp [CustomToken.applyOp, CustomToken.runOp, he]

/-- Witness for C8 at a concrete distributor state. -/
theorem distributeTokens_spec_witness :
    (c5CustTok.distributors 1 = true →
      ([1] : List (Addr 1)).length ≠ ([2, 3] : List ℕ).length →
      CustomToken.distributeTokens c5CustTok 1 [1] [2, 3]
        = .error .LengthMismatch) ∧
    (∀ e, CustomToken.distributeTokens c5CustTok 1 [1] [2, 3] = .error e →
      CustomToken.applyOp c5CustTok (.distribute 1 [1] [2, 3])
        = c5CustTok) :=
  ⟨(distributeTokens_spec c5CustTok 1 [1] [2, 3]).2.1,
    (distributeTokens_spec c5CustTok 1 [1] [2, 3]).2.2.2⟩

/-- C9: for both token variants, over every call sequence the sum of all
balances equals the cumulative minted amount — the constructor mint of
`totalSupply * 10 ^ decimals` for the distributor-gated token (which has
no later mint entry point), and the constructor mint of `initialSupply`
plus all successfully minted amounts for the factory-deployed token. -/
theorem token_conservation :
    (∀ (n : ℕ) (nm sy : String) (ts d : ℕ) (o : Addr n) (tr : Bool)
        (s0 : CustomToken.State n),
      CustomToken.create nm sy ts d o tr = .ok s0 →
      ∀ ops : List (CustomToken.Op n),
        (∑ a, (CustomToken.run s0 ops).balances a) = ts * 10 ^ d) ∧
    (∀ (n : ℕ) (nm sy : String) (supply d : ℕ) (tr : Bool) (c : Addr n)
        (t0 : FactoryToken.State n),
      FactoryToken.create nm sy supply d tr c = .ok t0 →
      ∀ ops : List (FactoryToken.Op n),
        (∑ a, (FactoryToken.run t0 ops).balances a)
          = supply + FactoryToken.mintedDuring t0 ops) := by
  constructor
  · intro n nm sy ts d o tr s0 h ops
    rw [CustomToken.run_sum]
    exact CustomToken.create_sum h
  · intro n nm sy supply d tr c t0 h ops
    have h1 := FactoryToken.create_sum_ft h
    have h2 := FactoryToken.run_step ops t0
    have h3 := FactoryToken.run_minted ops t0
    omega

/-- The distributor-gated token freshly created with supply 3, decimals 1,
owner 1. -/
def c9CT : CustomToken.State 1 :=
  match CustomToken.create "A" "A" 3 1 1 true with
  | .ok s => s
  | .error _ => c5CustTok

/-- The factory-variant token freshly created with supply 7, decimals 0,
creator 1. -/
def c9FT : FactoryToken.State 1 :=
  match FactoryToken.create "B" "B" 7 0 true 1 with
  | .ok s => s
  | .error _ => c5FactTok

/-- Witness for C9 on concrete creations followed by a distribute call and
a mint call respectively. -/
theorem token_conservation_witness :
    CustomToken.create "A" "A" 3 1 1 true = .ok c9CT ∧
    FactoryToken.create "B" "B" 7 0 true 1 = .ok c9FT ∧
    (∑ a, (CustomToken.run c9CT
        [CustomToken.Op.distribute 1 [1] [2]]).balances a) = 3 * 10 ^ 1 ∧
    (∑ a, (FactoryToken.run c9FT
        [FactoryToken.Op.mint 1 1 4]).balances a)
      = 7 + FactoryToken.mintedDuring c9FT [FactoryToken.Op.mint 1 1 4] :=
  ⟨rfl, rfl,
    token_conservation.1 1 "A" "A" 3 1 1 true c9CT rfl
      [CustomToken.Op.distribute 1 [1] [2]],
    token_conservation.2 1 "B" "B" 7 0 true 1 c9FT rfl
      [FactoryToken.Op.mint 1 1 4]⟩

end TokenVote
